import Mathlib

/-!
Shallow embedding of the ReCirq readout-analysis notebook
(docs/Readout-Analysis.ipynb).

The notebook computes per-theta expectation values from measured bitstrings
(the z_vals column), and fits a three-parameter noise model by minimizing an
objective function built by get_obj_func.  The objective simulates the
single-qubit circuit Ry(theta) followed by a dummy measurement under the
DepolarizingWithDampedReadoutNoiseModel of cirq.contrib.noise_models, using a
density-matrix simulator, and sums the absolute deviations from the observed
expectation values.

All quantum states reached in that simulation are real symmetric 2 by 2
density matrices: Ry is a real rotation applied to the ground state, and each
of the three channels involved maps real matrices to real matrices.  We
therefore embed the density matrix as four real entries.  Machine floats are
idealized as real numbers.
-/

open Real

noncomputable section

/-- A real 2 by 2 matrix; entry rJK is row J, column K.  It represents the
single-qubit density matrices arising in the notebook simulation. -/
structure Mat2 where
  r00 : ℝ
  r01 : ℝ
  r10 : ℝ
  r11 : ℝ

/-- Entrywise sum of two real 2 by 2 matrices. -/
def madd (ρ σ : Mat2) : Mat2 :=
  ⟨ρ.r00 + σ.r00, ρ.r01 + σ.r01, ρ.r10 + σ.r10, ρ.r11 + σ.r11⟩

/-- Scalar multiple of a real 2 by 2 matrix. -/
def msmul (c : ℝ) (ρ : Mat2) : Mat2 :=
  ⟨c * ρ.r00, c * ρ.r01, c * ρ.r10, c * ρ.r11⟩

/-- Conjugation by Pauli X: the map sending rho to X rho X. -/
def xConj (ρ : Mat2) : Mat2 := ⟨ρ.r11, ρ.r10, ρ.r01, ρ.r00⟩

/-- Conjugation by Pauli Y restricted to real matrices: for a real rho the
matrix Y rho Y is again real, with the entries below. -/
def yConj (ρ : Mat2) : Mat2 := ⟨ρ.r11, -ρ.r10, -ρ.r01, ρ.r00⟩

/-- Conjugation by Pauli Z: the map sending rho to Z rho Z. -/
def zConj (ρ : Mat2) : Mat2 := ⟨ρ.r00, -ρ.r01, -ρ.r10, ρ.r11⟩

/-- The cirq DepolarizingChannel with total error probability p:
rho maps to (1 - p) rho + (p/3)(X rho X + Y rho Y + Z rho Z).
The noise model applies it after every non-measurement moment. -/
def depolarize (p : ℝ) (ρ : Mat2) : Mat2 :=
  madd (msmul (1 - p) ρ)
    (msmul (p / 3) (madd (madd (xConj ρ) (yConj ρ)) (zConj ρ)))

/-- The cirq AmplitudeDampingChannel with decay probability g, written out on
real matrices from its Kraus operators K0 = diag(1, sqrt(1-g)) and
K1 with sqrt(g) in the upper right corner.  The noise model applies it to
every qubit just before a measurement moment. -/
def ampDamp (g : ℝ) (ρ : Mat2) : Mat2 :=
  ⟨ρ.r00 + g * ρ.r11, Real.sqrt (1 - g) * ρ.r01,
   Real.sqrt (1 - g) * ρ.r10, (1 - g) * ρ.r11⟩

/-- The cirq BitFlipChannel with probability p:
rho maps to (1 - p) rho + p X rho X.  The noise model applies it between the
amplitude damping and the measurement moment. -/
def bitFlip (p : ℝ) (ρ : Mat2) : Mat2 :=
  madd (msmul (1 - p) ρ) (msmul p (xConj ρ))

/-- Density matrix of Ry(theta) applied to the ground state: the pure state
with amplitudes (cos(theta/2), sin(theta/2)), as prepared by get_circuit. -/
def ryState (θ : ℝ) : Mat2 :=
  ⟨cos (θ / 2) ^ 2, cos (θ / 2) * sin (θ / 2),
   sin (θ / 2) * cos (θ / 2), sin (θ / 2) ^ 2⟩

/-- Final density matrix produced by cirq.DensityMatrixSimulator with
DepolarizingWithDampedReadoutNoiseModel on the two-moment circuit
[Ry(theta), dummy measurement]: the noise model turns it into
Ry, then depolarize, then amplitude damping, then bit flip, and the dummy
measurement gate itself acts as the identity. -/
def simRho (depol_prob decay_prob readout_prob θ : ℝ) : Mat2 :=
  bitFlip readout_prob (ampDamp decay_prob (depolarize depol_prob (ryState θ)))

/-- The Pauli Z expectation read off a unit-trace symmetric density matrix,
as extracted in obj_func from the simulator result. -/
def expZ (ρ : Mat2) : ℝ := ρ.r00 - ρ.r11

/-- The simulated Z expectation for one sweep angle inside obj_func. -/
def simZ (depol_prob decay_prob readout_prob θ : ℝ) : ℝ :=
  expZ (simRho depol_prob decay_prob readout_prob θ)

/-- The results array built by the loop over thetas in obj_func: one
simulated expectation per sweep angle. -/
def simResults (depol_prob decay_prob readout_prob : ℝ) (thetas : List ℝ) :
    List ℝ :=
  thetas.map (fun θ => simZ depol_prob decay_prob readout_prob θ)

/-- np.sum of np.abs of the elementwise difference of two equally long
vectors, as in the cost line of obj_func. -/
def npAbsDiffSum (rs es : List ℝ) : ℝ :=
  (List.zipWith (fun r e => |r - e|) rs es).sum

/-- The closure obj_func returned by get_obj_func, with the list all_results
that the closure captures (and shares with the caller of get_obj_func) made
an explicit argument.  The call returns the updated all_results list together
with the returned cost.  Negative components take the early penalty return,
leaving all_results untouched; otherwise the simulated results array is
appended and the L1 deviation from data_expectations is returned. -/
def objFuncState (data_expectations thetas : List ℝ)
    (all_results : List (List ℝ)) (x : ℝ × ℝ × ℝ) : List (List ℝ) × ℝ :=
  if x.1 < 0 ∨ x.2.1 < 0 ∨ x.2.2 < 0 then
    (all_results, 1000)
  else
    (all_results ++ [simResults x.1 x.2.1 x.2.2 thetas],
     npAbsDiffSum (simResults x.1 x.2.1 x.2.2 thetas) data_expectations)

/-- The value returned by one call of obj_func. -/
def objFunc (data_expectations thetas : List ℝ) (x : ℝ × ℝ × ℝ) : ℝ :=
  (objFuncState data_expectations thetas [] x).2

/-- The outcome of one obj_func call with the cirq error path modeled.
objFuncState above describes calls that complete; however, after the
negativity guard, obj_func constructs DepolarizingWithDampedReadoutNoiseModel,
whose channel constructors validate each probability and raise ValueError
when one exceeds 1.  That raise happens before any simulation and before the
append to all_results, so such a call returns no cost and leaves all_results
untouched; we model it as none.  Otherwise the call completes exactly as in
objFuncState. -/
def objFuncCall (data_expectations thetas : List ℝ)
    (all_results : List (List ℝ)) (x : ℝ × ℝ × ℝ) :
    Option (List (List ℝ) × ℝ) :=
  if x.1 < 0 ∨ x.2.1 < 0 ∨ x.2.2 < 0 then
    some (all_results, 1000)
  else if 1 < x.1 ∨ 1 < x.2.1 ∨ 1 < x.2.2 then
    none
  else
    some (all_results ++ [simResults x.1 x.2.1 x.2.2 thetas],
          npAbsDiffSum (simResults x.1 x.2.1 x.2.2 thetas) data_expectations)

/-- The value returned by one obj_func call on the fallible model: none when
the cirq probability validation raises inside the call. -/
def objFuncVal (data_expectations thetas : List ℝ) (x : ℝ × ℝ × ℝ) :
    Option ℝ :=
  (objFuncCall data_expectations thetas [] x).map (fun r => r.2)

/-- One entry of the z_vals column: np.mean of (-1) raised to each bit over
the shots recorded for one parameter setting. -/
def zVal (bits : List ℕ) : ℝ :=
  (bits.map (fun b => (-1 : ℝ) ^ b)).sum / bits.length

/-! ### Helper lemmas -/

/-- With all three noise parameters zero the channels are the identity and
the simulated expectation is the analytic one, cos theta. -/
lemma simZ_zero_noise (θ : ℝ) : simZ 0 0 0 θ = Real.cos θ := by
  simp only [simZ, simRho, bitFlip, ampDamp, depolarize, madd, msmul,
    xConj, yConj, zConj, ryState, expZ, sub_zero, Real.sqrt_one, zero_div,
    zero_mul, mul_zero, add_zero, one_mul, zero_add, mul_one]
  have h : Real.cos (θ / 2) ^ 2 - Real.sin (θ / 2) ^ 2 = Real.cos θ := by
    rw [← Real.cos_two_mul']
    congr 1
    ring
  linarith [h]

lemma npAbsDiffSum_nil : npAbsDiffSum [] [] = 0 := by
  simp [npAbsDiffSum]

lemma npAbsDiffSum_cons (r e : ℝ) (rs es : List ℝ) :
    npAbsDiffSum (r :: rs) (e :: es) = |r - e| + npAbsDiffSum rs es := by
  simp [npAbsDiffSum]

lemma npAbsDiffSum_nonneg (rs : List ℝ) :
    ∀ es : List ℝ, 0 ≤ npAbsDiffSum rs es := by
  induction rs with
  | nil => intro es; simp [npAbsDiffSum]
  | cons r rs ih =>
    intro es
    cases es with
    | nil => simp [npAbsDiffSum]
    | cons e es =>
      rw [npAbsDiffSum_cons]
      have h1 : (0 : ℝ) ≤ |r - e| := abs_nonneg _
      have h2 := ih es
      linarith

lemma npAbsDiffSum_self (rs : List ℝ) : npAbsDiffSum rs rs = 0 := by
  induction rs with
  | nil => exact npAbsDiffSum_nil
  | cons r rs ih => rw [npAbsDiffSum_cons, ih, sub_self, abs_zero, add_zero]

lemma npAbsDiffSum_eq_finsum (rs : List ℝ) :
    ∀ es : List ℝ, rs.length = es.length →
      npAbsDiffSum rs es
        = ∑ i in Finset.range rs.length, |rs.getD i 0 - es.getD i 0| := by
  induction rs with
  | nil => intro es h; simp [npAbsDiffSum]
  | cons r rs ih =>
    intro es h
    cases es with
    | nil => simp at h
    | cons e es =>
      simp only [List.length_cons, Nat.succ.injEq] at h
      rw [npAbsDiffSum_cons, ih es h, List.length_cons,
        Finset.sum_range_succ']
      simp only [List.getD_cons_succ, List.getD_cons_zero]
      ring

lemma npAbsDiffSum_replicate (n : ℕ) (u v : ℝ) :
    npAbsDiffSum (List.replicate n u) (List.replicate n v) = n * |u - v| := by
  induction n with
  | zero => simp [npAbsDiffSum]
  | succ k ih =>
    rw [List.replicate_succ, List.replicate_succ, npAbsDiffSum_cons, ih]
    push_cast
    ring

lemma getD_map_of_lt (f : ℝ → ℝ) (l : List ℝ) (i : ℕ) (h : i < l.length) :
    (l.map f).getD i 0 = f (l.getD i 0) := by
  rw [List.getD_eq_getElem?_getD, List.getD_eq_getElem?_getD,
    List.getElem?_map, List.getElem?_eq_getElem h]
  simp

/-- Rewrites a mapped list sum as an indexed sum over positions. -/
lemma map_sum_eq_finsum (f : ℕ → ℝ) (l : List ℕ) :
    (l.map f).sum = ∑ i in Finset.range l.length, f (l.getD i 0) := by
  induction l with
  | nil => simp
  | cons x xs ih =>
    rw [List.map_cons, List.sum_cons, ih, List.length_cons,
      Finset.sum_range_succ']
    simp only [List.getD_cons_succ, List.getD_cons_zero]
    ring

/-- For a list of 0s and 1s, the sum of (-1) to the bits counts the zeros
minus the ones. -/
lemma map_negOnePow_sum_eq_counts (bits : List ℕ)
    (hb : ∀ x ∈ bits, x = 0 ∨ x = 1) :
    (bits.map (fun b => (-1 : ℝ) ^ b)).sum
      = (bits.count 0 : ℝ) - (bits.count 1 : ℝ) := by
  induction bits with
  | nil => simp
  | cons x xs ih =>
    have hx := hb x (List.mem_cons_self x xs)
    have ih2 := ih (fun y hy => hb y (List.mem_cons_of_mem x hy))
    rcases hx with h0 | h1
    · subst h0
      rw [List.map_cons, List.sum_cons, ih2]
      have c0 : List.count 0 (0 :: xs) = List.count 0 xs + 1 := by
        simp [List.count_cons]
      have c1 : List.count 1 (0 :: xs) = List.count 1 xs := by
        simp [List.count_cons]
      rw [c0, c1]
      push_cast
      ring
    · subst h1
      rw [List.map_cons, List.sum_cons, ih2]
      have c0 : List.count 0 (1 :: xs) = List.count 0 xs := by
        simp [List.count_cons]
      have c1 : List.count 1 (1 :: xs) = List.count 1 xs + 1 := by
        simp [List.count_cons]
      rw [c0, c1]
      push_cast
      ring

/-- Evaluation of one obj_func call on the penalty branch. -/
lemma objFuncState_of_neg (data thetas : List ℝ) (st : List (List ℝ))
    (a b c : ℝ) (h : a < 0 ∨ b < 0 ∨ c < 0) :
    objFuncState data thetas st (a, b, c) = (st, 1000) := by
  unfold objFuncState
  rw [if_pos]
  exact h

/-- Evaluation of one obj_func call on the simulation branch. -/
lemma objFuncState_of_nonneg (data thetas : List ℝ) (st : List (List ℝ))
    (a b c : ℝ) (ha : 0 ≤ a) (hb : 0 ≤ b) (hc : 0 ≤ c) :
    objFuncState data thetas st (a, b, c)
      = (st ++ [simResults a b c thetas],
         npAbsDiffSum (simResults a b c thetas) data) := by
  unfold objFuncState
  rw [if_neg]
  push_neg
  exact ⟨ha, hb, hc⟩

/-- Evaluation of one fallible obj_func call on the penalty branch. -/
lemma objFuncCall_of_neg (data thetas : List ℝ) (st : List (List ℝ))
    (a b c : ℝ) (h : a < 0 ∨ b < 0 ∨ c < 0) :
    objFuncCall data thetas st (a, b, c) = some (st, 1000) := by
  unfold objFuncCall
  rw [if_pos]
  exact h

/-- Evaluation of one fallible obj_func call on the ValueError path: some
component exceeds 1 and none is negative. -/
lemma objFuncCall_of_raise (data thetas : List ℝ) (st : List (List ℝ))
    (a b c : ℝ) (ha : 0 ≤ a) (hb : 0 ≤ b) (hc : 0 ≤ c)
    (h : 1 < a ∨ 1 < b ∨ 1 < c) :
    objFuncCall data thetas st (a, b, c) = none := by
  unfold objFuncCall
  rw [if_neg, if_pos]
  · exact h
  · push_neg
    exact ⟨ha, hb, hc⟩

/-- Evaluation of one fallible obj_func call on the completing branch: all
components lie in the interval from 0 to 1. -/
lemma objFuncCall_of_valid (data thetas : List ℝ) (st : List (List ℝ))
    (a b c : ℝ) (ha : 0 ≤ a) (hb : 0 ≤ b) (hc : 0 ≤ c)
    (ha1 : a ≤ 1) (hb1 : b ≤ 1) (hc1 : c ≤ 1) :
    objFuncCall data thetas st (a, b, c)
      = some (st ++ [simResults a b c thetas],
              npAbsDiffSum (simResults a b c thetas) data) := by
  unfold objFuncCall
  rw [if_neg, if_neg]
  · push_neg
    exact ⟨ha1, hb1, hc1⟩
  · push_neg
    exact ⟨ha, hb, hc⟩

/-- On the domain where the cirq probability validation cannot raise (some
component negative, or all components at most 1), the fallible model agrees
with objFuncState. -/
lemma objFuncCall_agrees_objFuncState (data thetas : List ℝ)
    (st : List (List ℝ)) (a b c : ℝ)
    (h : (a < 0 ∨ b < 0 ∨ c < 0) ∨ (a ≤ 1 ∧ b ≤ 1 ∧ c ≤ 1)) :
    objFuncCall data thetas st (a, b, c)
      = some (objFuncState data thetas st (a, b, c)) := by
  by_cases hneg : a < 0 ∨ b < 0 ∨ c < 0
  · rw [objFuncCall_of_neg data thetas st a b c hneg,
      objFuncState_of_neg data thetas st a b c hneg]
  · push_neg at hneg
    obtain ⟨ha, hb, hc⟩ := hneg
    have h1 : a ≤ 1 ∧ b ≤ 1 ∧ c ≤ 1 := by
      rcases h with h | h
      · exact absurd h (by push_neg; exact ⟨ha, hb, hc⟩)
      · exact h
    rw [objFuncCall_of_valid data thetas st a b c ha hb hc h1.1 h1.2.1 h1.2.2,
      objFuncState_of_nonneg data thetas st a b c ha hb hc]

/-- The concrete cost of the C9 counterexample: 500 angles 0 against 500
observed values -1 under zero noise give 500 times 2. -/
lemma cost_replicate_eq_1000 :
    npAbsDiffSum (simResults 0 0 0 (List.replicate 500 0))
      (List.replicate 500 (-1)) = 1000 := by
  have h1 : simResults 0 0 0 (List.replicate 500 0)
      = List.replicate 500 (simZ 0 0 0 0) := by
    unfold simResults
    rw [List.map_replicate]
  rw [h1, npAbsDiffSum_replicate, simZ_zero_noise, Real.cos_zero,
    show (1 : ℝ) - (-1) = 2 by norm_num,
    abs_of_nonneg (by norm_num : (0 : ℝ) ≤ 2)]
  norm_num

/-! ### Claims -/

/-- C1: for every reference list of observed expectation values and every
candidate vector with at least one negative component, obj_func returns
exactly the constant 1000. -/
theorem C1_penalty_on_negative (data thetas : List ℝ) (a b c : ℝ)
    (h : a < 0 ∨ b < 0 ∨ c < 0) :
    objFunc data thetas (a, b, c) = 1000 := by
  unfold objFunc
  rw [objFuncState_of_neg data thetas [] a b c h]

/-- Witness for C1 at the concrete vector (-1, 0, 0). -/
theorem C1_witness : objFunc [] [] ((-1 : ℝ), 0, 0) = 1000 :=
  C1_penalty_on_negative [] [] (-1) 0 0 (Or.inl (by norm_num))

/-- C2: for every all-nonnegative candidate vector, obj_func simulates the
noisy circuit once per sweep angle and returns the sum over the sweep angles
of the absolute differences between the simulated Z expectations and the
observed expectation values. -/
theorem C2_cost_is_l1_deviation (data thetas : List ℝ) (a b c : ℝ)
    (ha : 0 ≤ a) (hb : 0 ≤ b) (hc : 0 ≤ c)
    (hlen : data.length = thetas.length) :
    objFunc data thetas (a, b, c)
        = ∑ i in Finset.range thetas.length,
            |simZ a b c (thetas.getD i 0) - data.getD i 0| ∧
      (simResults a b c thetas).length = thetas.length := by
  constructor
  · unfold objFunc
    rw [objFuncState_of_nonneg data thetas [] a b c ha hb hc]
    show npAbsDiffSum (simResults a b c thetas) data = _
    have hl : (simResults a b c thetas).length = thetas.length := by
      simp [simResults]
    rw [npAbsDiffSum_eq_finsum _ data (by rw [hl, hlen]), hl]
    apply Finset.sum_congr rfl
    intro i hi
    rw [Finset.mem_range] at hi
    simp only [simResults]
    rw [getD_map_of_lt _ thetas i hi]
  · simp [simResults]

/-- Witness for C2 at data [0], thetas [0] and the vector (0, 0, 0). -/
theorem C2_witness :
    objFunc [0] [0] ((0 : ℝ), 0, 0)
        = ∑ i in Finset.range ([0] : List ℝ).length,
            |simZ 0 0 0 (([0] : List ℝ).getD i 0) - ([0] : List ℝ).getD i 0| ∧
      (simResults 0 0 0 [0]).length = ([0] : List ℝ).length :=
  C2_cost_is_l1_deviation [0] [0] 0 0 0 le_rfl le_rfl le_rfl rfl

/-- C3: for a nonempty list of 0/1 measurement outcomes, the z_vals entry is
the mean over all shots of (-1) raised to the bit, equivalently the count of
zeros minus the count of ones divided by the number of shots. -/
theorem C3_zval_is_mean (bits : List ℕ) (_hne : bits ≠ [])
    (hb : ∀ x ∈ bits, x = 0 ∨ x = 1) :
    zVal bits
        = (∑ i in Finset.range bits.length, (-1 : ℝ) ^ bits.getD i 0)
            / bits.length ∧
      zVal bits
        = ((bits.count 0 : ℝ) - (bits.count 1 : ℝ)) / bits.length := by
  constructor
  · unfold zVal
    rw [map_sum_eq_finsum]
  · unfold zVal
    rw [map_negOnePow_sum_eq_counts bits hb]

/-- Witness for C3 at the concrete shot list [0, 1]. -/
theorem C3_witness :
    zVal [0, 1]
        = (∑ i in Finset.range ([0, 1] : List ℕ).length,
            (-1 : ℝ) ^ ([0, 1] : List ℕ).getD i 0)
            / ([0, 1] : List ℕ).length ∧
      zVal [0, 1]
        = ((([0, 1] : List ℕ).count 0 : ℝ) - (([0, 1] : List ℕ).count 1 : ℝ))
            / ([0, 1] : List ℕ).length :=
  C3_zval_is_mean [0, 1] (by simp) (by decide)

/-- C4: for every all-nonnegative candidate vector, the value returned by
obj_func is nonnegative, being a sum of absolute values. -/
theorem C4_nonneg_on_valid (data thetas : List ℝ) (a b c : ℝ)
    (ha : 0 ≤ a) (hb : 0 ≤ b) (hc : 0 ≤ c) :
    0 ≤ objFunc data thetas (a, b, c) := by
  unfold objFunc
  rw [objFuncState_of_nonneg data thetas [] a b c ha hb hc]
  exact npAbsDiffSum_nonneg _ _

/-- Witness for C4 at data [0], thetas [0] and the vector (0, 0, 0). -/
theorem C4_witness : 0 ≤ objFunc [0] [0] ((0 : ℝ), 0, 0) :=
  C4_nonneg_on_valid [0] [0] 0 0 0 le_rfl le_rfl le_rfl

/-- C5: for every valid candidate vector, if the simulated expectation
values coincide with the observed ones then obj_func returns 0. -/
theorem C5_zero_cost_on_match (data thetas : List ℝ) (a b c : ℝ)
    (ha : 0 ≤ a) (hb : 0 ≤ b) (hc : 0 ≤ c)
    (hmatch : simResults a b c thetas = data) :
    objFunc data thetas (a, b, c) = 0 := by
  unfold objFunc
  rw [objFuncState_of_nonneg data thetas [] a b c ha hb hc]
  show npAbsDiffSum (simResults a b c thetas) data = 0
  rw [hmatch, npAbsDiffSum_self]

/-- Witness for C5: with theta 0 and observed value 1 the noiseless vector
reproduces the data exactly and the cost is 0. -/
theorem C5_witness : objFunc [1] [0] ((0 : ℝ), 0, 0) = 0 :=
  C5_zero_cost_on_match [1] [0] 0 0 0 le_rfl le_rfl le_rfl
    (by simp [simResults, simZ_zero_noise])

/-- C6: with the all-zero noise vector the expectation simulated inside
obj_func equals the analytic value cos theta at every sweep angle. -/
theorem C6_zero_noise_matches_cos (θ : ℝ) : simZ 0 0 0 θ = Real.cos θ :=
  simZ_zero_noise θ

/-- C7 counterexample: a single non-penalized call of obj_func does mutate
state shared with its caller: it changes the all_results list returned by
get_obj_func, here from the empty list to a one-element list. -/
theorem C7_counterexample :
    (objFuncState [1] [0] [] ((0 : ℝ), 0, 0)).1 ≠ [] := by
  rw [objFuncState_of_nonneg [1] [0] [] 0 0 0 le_rfl le_rfl le_rfl]
  simp

/-- C7 (amended): execution is sequential, but obj_func is not free of
shared mutable state: every non-penalized call appends to the all_results
list shared with the caller of get_obj_func, so the list after the call
differs from the list before it. -/
theorem C7_amended_call_mutates (data thetas : List ℝ)
    (st : List (List ℝ)) (a b c : ℝ)
    (ha : 0 ≤ a) (hb : 0 ≤ b) (hc : 0 ≤ c) :
    (objFuncState data thetas st (a, b, c)).1 ≠ st := by
  rw [objFuncState_of_nonneg data thetas st a b c ha hb hc]
  intro h
  have hlen := congrArg List.length h
  simp only [List.length_append, List.length_cons, List.length_nil] at hlen
  omega

/-- Witness for the amended C7 at a concrete non-penalized call. -/
theorem C7_witness :
    (objFuncState [2] [0, 1] [[5]] ((0 : ℝ), 0, 0)).1 ≠ [[5]] :=
  C7_amended_call_mutates [2] [0, 1] [[5]] 0 0 0 le_rfl le_rfl le_rfl

/-- C9 counterexample: with 500 sweep angles equal to 0 and all observed
values equal to -1, the vector (0, 0, 0), none of whose components is
negative, makes the obj_func call complete and return exactly 1000, so
returning 1000 does not imply a negative component. -/
theorem C9_counterexample :
    objFuncVal (List.replicate 500 (-1)) (List.replicate 500 0)
        ((0 : ℝ), 0, 0) = some 1000 ∧
      ¬((0 : ℝ) < 0 ∨ (0 : ℝ) < 0 ∨ (0 : ℝ) < 0) := by
  constructor
  · unfold objFuncVal
    rw [objFuncCall_of_valid _ _ [] 0 0 0 le_rfl le_rfl le_rfl
      (by norm_num) (by norm_num) (by norm_num)]
    show some (npAbsDiffSum (simResults 0 0 0 (List.replicate 500 0))
        (List.replicate 500 (-1))) = some 1000
    rw [cost_replicate_eq_1000]
  · norm_num

/-- C9 (amended): obj_func takes the constant 1000 penalty branch whenever
some component of the input vector is negative; component values greater
than 1 are not rejected by the guard of obj_func but passed on to the
simulator construction, whose probability validation raises, so the call
returns no value; components all lying between 0 and 1 make the call
complete with the simulated cost, which can coincidentally equal 1000, so
returning 1000 does not imply a negative component. -/
theorem C9_amended_penalty_branch (data thetas : List ℝ) (a b c : ℝ) :
    ((a < 0 ∨ b < 0 ∨ c < 0) →
       objFuncVal data thetas (a, b, c) = some 1000) ∧
    (0 ≤ a → 0 ≤ b → 0 ≤ c → (1 < a ∨ 1 < b ∨ 1 < c) →
       objFuncVal data thetas (a, b, c) = none) ∧
    (0 ≤ a → a ≤ 1 → 0 ≤ b → b ≤ 1 → 0 ≤ c → c ≤ 1 →
       objFuncVal data thetas (a, b, c)
         = some (npAbsDiffSum (simResults a b c thetas) data)) := by
  refine ⟨fun h => ?_, fun ha hb hc h => ?_,
    fun ha ha1 hb hb1 hc hc1 => ?_⟩
  · unfold objFuncVal
    rw [objFuncCall_of_neg data thetas [] a b c h]
    rfl
  · unfold objFuncVal
    rw [objFuncCall_of_raise data thetas [] a b c ha hb hc h]
    rfl
  · unfold objFuncVal
    rw [objFuncCall_of_valid data thetas [] a b c ha hb hc ha1 hb1 hc1]
    rfl

/-- Witness for the amended C9: at (2, 3, 4) the components pass the
negativity guard and reach the simulator construction, which raises, so no
value is returned; at (0, 0, 0) the call completes with the simulated
cost. -/
theorem C9_witness :
    objFuncVal [0] [0] ((2 : ℝ), 3, 4) = none ∧
    objFuncVal [0] [0] ((0 : ℝ), 0, 0)
        = some (npAbsDiffSum (simResults 0 0 0 [0]) [0]) :=
  ⟨(C9_amended_penalty_branch [0] [0] 2 3 4).2.1 (by norm_num) (by norm_num)
      (by norm_num) (Or.inl (by norm_num)),
   (C9_amended_penalty_branch [0] [0] 0 0 0).2.2 le_rfl (by norm_num) le_rfl
      (by norm_num) le_rfl (by norm_num)⟩

/-- C10: a penalized call of obj_func leaves the shared all_results list
unchanged, while every non-penalized call appends exactly one simulated
results array whose length equals the number of sweep angles. -/
theorem C10_all_results_discipline (data thetas : List ℝ)
    (st : List (List ℝ)) (a b c : ℝ) :
    ((a < 0 ∨ b < 0 ∨ c < 0) →
       (objFuncState data thetas st (a, b, c)).1 = st) ∧
    (0 ≤ a → 0 ≤ b → 0 ≤ c →
       (objFuncState data thetas st (a, b, c)).1
           = st ++ [simResults a b c thetas] ∧
         (simResults a b c thetas).length = thetas.length) := by
  constructor
  · intro h
    rw [objFuncState_of_neg data thetas st a b c h]
  · intro ha hb hc
    rw [objFuncState_of_nonneg data thetas st a b c ha hb hc]
    exact ⟨rfl, by simp [simResults]⟩

/-- Witness for C10: a penalized call keeps the list [[5]], a non-penalized
call appends its results array to it. -/
theorem C10_witness :
    (objFuncState [0] [0] [[5]] ((-1 : ℝ), 0, 0)).1 = [[5]] ∧
    (objFuncState [0] [0] [[5]] ((1 : ℝ), 0, 0)).1
        = [[5]] ++ [simResults 1 0 0 [0]] :=
  ⟨(C10_all_results_discipline [0] [0] [[5]] (-1) 0 0).1
      (Or.inl (by norm_num)),
   ((C10_all_results_discipline [0] [0] [[5]] 1 0 0).2
      (by norm_num) le_rfl le_rfl).1⟩

end
